import Mathlib

/-!
# Signer: validation, preview and the submission retry loop

A shallow embedding of `main.go` of the Signer tool.  The program reads
line-delimited transaction envelopes, checks each one (`basicValidation`),
and then previews it, or signs it and either writes it to the output file or
submits it to Horizon, retrying according to the kind of error returned.

Conventions of the embedding:

* Go `string` values are `String`; the byte stream behind the `bufio.Reader`
  is a `List Char` (the delimiter `'\n'` is a single byte that never occurs
  inside a multi-byte UTF-8 sequence, so splitting at characters and at bytes
  agree).
* The library calls whose code is not part of the program
  (`UnmarshalText`, `Wallet.Sign`, `MarshalText`, `SubmitTransaction`) are
  parameters: three functions in `Services`, and the list of results the
  Horizon client returns to the successive `SubmitTransaction` calls.
* A run is the list of effects in program order (`Event`) together with the
  way it ended (`Status`).  A Go `panic` ends the run with
  `Status.panicked`.
* `horizonclient.Error.Response` is always populated by the client library,
  so a Horizon error always carries a status code.
* `err.Problem.Extras` is a `map[string]interface{}` that the client fills
  by decoding the JSON body of the response; `ExtraValue` keeps the dynamic
  type of its values apart, because line 113 asserts one.
-/

namespace Signer

/-! ## Data model (the parts of `txnbuild` the program looks at) -/

abbrev Byte := Fin 256

/-- The dynamic type of `txn.Memo()`: the four memo types of `txnbuild`, or a
nil interface when the transaction has no memo. -/
inductive Memo where
  | MemoText (text : String)
  | MemoID (id : Nat)
  | MemoHash (hash : List Byte)
  | MemoReturn (hash : List Byte)
  | nil
  deriving DecidableEq, Repr

/-- The type `txnbuild.Asset`. -/
inductive Asset where
  | NativeAsset
  | CreditAsset (Code Issuer : String)
  deriving DecidableEq, Repr

/-- The struct `txnbuild.Payment`, with the fields the preview prints. -/
structure Payment where
  Destination : String
  Amount : String
  Asset : Asset
  deriving DecidableEq, Repr

/-- The dynamic type of one entry of `txn.Operations()`: a `*txnbuild.Payment`
or an operation of another kind. -/
inductive Operation where
  | Payment (p : Payment)
  | Other (kind : String)
  deriving DecidableEq, Repr

/-- One entry of `txn.Signatures()`. -/
structure DecoratedSignature where
  Hint : List Byte
  Signature : List Byte
  deriving DecidableEq, Repr

/-- What the program reads from a `*txnbuild.Transaction`. -/
structure Transaction where
  Memo : Memo
  Operations : List Operation
  SequenceNumber : Int
  Signatures : List DecoratedSignature
  deriving DecidableEq, Repr

/-- The type assertion `txn.Memo().(txnbuild.MemoHash)` succeeds. -/
def Memo.isMemoHash : Memo → Bool
  | .MemoHash _ => true
  | _ => false

/-- The type assertion `txn.Memo().(txnbuild.MemoReturn)` succeeds. -/
def Memo.isMemoReturn : Memo → Bool
  | .MemoReturn _ => true
  | _ => false

/-- The type assertion `op.(*txnbuild.Payment)` succeeds. -/
def Operation.isPayment : Operation → Bool
  | .Payment _ => true
  | .Other _ => false

/-! ## `basicValidation` (main.go, lines 150-163) -/

/-- The function `basicValidation`: `.ok ()` is a nil error, `.error msg` is
the error created by `errors.New msg`. -/
def basicValidation (txn : Transaction) : Except String Unit :=
  if !txn.Memo.isMemoHash && !txn.Memo.isMemoReturn then
    .error "memo must be of type memo_hash or memo_return"
  else if h : txn.Operations.length ≠ 1 then
    .error "transaction must contain a single operation"
  else
    have h0 : 0 < txn.Operations.length := by omega
    if !(txn.Operations[0]).isPayment then
      .error "transaction operation must be of type Payment"
    else
      .ok ()

/-! ## `previewTxn` (main.go, lines 165-175) -/

/-- One hexadecimal digit, as `encoding/hex` writes it. -/
def hex.digit (n : Nat) : Char :=
  "0123456789abcdef".data.getD n '0'

/-- The function `hex.EncodeToString`: two lower-case digits per byte. -/
def hex.EncodeToString (src : List Byte) : String :=
  String.mk (src.flatMap fun b => [hex.digit (b.val / 16), hex.digit (b.val % 16)])

/-- The six arguments of the `fmt.Printf` call that ends `previewTxn`, in the
order of the format string. -/
structure PreviewLine where
  amount : String
  asset : Asset
  dest : String
  memo : String
  sigs : Nat
  sequence : Int
  deriving DecidableEq, Repr

/-- The function `previewTxn`.  `.ok l` is the line it prints; `.error msg`
is a run-time panic: the unchecked memo assertion of line 166, the index of
line 169, or the unchecked operation assertion of line 169. -/
def previewTxn (txn : Transaction) : Except String PreviewLine :=
  match txn.Memo with
  | .MemoHash rawMemo =>
    let memo := hex.EncodeToString rawMemo
    let sequence := txn.SequenceNumber
    match txn.Operations[0]? with
    | none => .error "index out of range [0] with length 0"
    | some (Operation.Payment paymentOp) =>
      let asset := paymentOp.Asset
      let amount := paymentOp.Amount
      let dest := paymentOp.Destination
      let sigs := txn.Signatures.length
      .ok ⟨amount, asset, dest, memo, sigs, sequence⟩
    | some (Operation.Other _) => .error "interface conversion: txnbuild.Operation is not *txnbuild.Payment"
  | _ => .error "interface conversion: txnbuild.Memo is not txnbuild.MemoHash"

/-! ## Library functions on strings and readers -/

/-- The function `strings.Contains`: `substr` occurs in `s`. -/
def strings.Contains (s substr : String) : Bool :=
  s.data.tails.any fun t => substr.data.isPrefixOf t

/-- The function `unicode.IsSpace`: the Latin-1 spaces and the code points
with the Unicode White_Space property. -/
def unicode.IsSpace (r : Char) : Bool :=
  let n := r.toNat
  n = 0x09 || n = 0x0A || n = 0x0B || n = 0x0C || n = 0x0D || n = 0x20 ||
  n = 0x85 || n = 0xA0 || n = 0x1680 || (0x2000 ≤ n && n ≤ 0x200A) ||
  n = 0x2028 || n = 0x2029 || n = 0x202F || n = 0x205F || n = 0x3000

/-- The function `strings.TrimSpace`: leading and trailing white space
removed. -/
def strings.TrimSpace (s : String) : String :=
  String.mk ((s.data.dropWhile unicode.IsSpace).reverse.dropWhile unicode.IsSpace).reverse

/-- The error a read reports: `io.EOF`, or any other error of the underlying
file. -/
inductive ReadError where
  | EOF
  | other (msg : String)
  deriving DecidableEq, Repr

/-- The state of the `bufio.Reader` over the input file: the bytes not yet
read, and the error the file reports once they are used up. -/
structure Reader where
  buf : List Char
  err : ReadError
  deriving DecidableEq, Repr

/-- The bytes up to and including the first `delim`, and what follows it;
`none` when there is no `delim`. -/
def bufio.readUntil (delim : Char) : List Char → List Char × Option (List Char)
  | [] => ([], none)
  | c :: cs =>
    if c = delim then ([c], some cs)
    else ((c :: (bufio.readUntil delim cs).1), (bufio.readUntil delim cs).2)

/-- The method `(*bufio.Reader).ReadString`: the data up to and including
the delimiter, the reader after the call, and the error.  When the input ends
before a delimiter, it returns the data read so far together with the error
of the file. -/
def bufio.ReadString (b : Reader) (delim : Char) : String × Reader × Option ReadError :=
  match bufio.readUntil delim b.buf with
  | (line, some rest) => (String.mk line, ⟨rest, b.err⟩, none)
  | (line, none) => (String.mk line, ⟨[], b.err⟩, some b.err)

/-! ## The Horizon client -/

/-- A member of a JSON object as `encoding/json` decodes it into an
`interface{}`: a `string`, a `[]interface{}` of strings, or another value. -/
inductive JSONValue where
  | string (s : String)
  | strings (xs : List String)
  | otherValue (descr : String)
  deriving DecidableEq, Repr

/-- The dynamic type of one value of `err.Problem.Extras`
(a `map[string]interface{}`): a `map[string]string`; a
`map[string]interface{}`, which is what `encoding/json` decodes a JSON object
to and so what the Horizon client stores for `result_codes`; or a value of
any other type. -/
inductive ExtraValue where
  | stringMap (m : List (String × String))
  | interfaceMap (m : List (String × JSONValue))
  | otherValue (descr : String)
  deriving DecidableEq, Repr

/-- The fields of a `*horizonclient.Error` the program reads:
`err.Response.StatusCode` and `err.Problem.Extras`. -/
structure HorizonError where
  StatusCode : Int
  Extras : List (String × ExtraValue)
  deriving DecidableEq, Repr

/-- A non-nil error returned by `horizon.SubmitTransaction`: a
`*horizonclient.Error`, or an error of another type. -/
inductive SubmitError where
  | horizon (e : HorizonError)
  | otherError (msg : String)
  deriving DecidableEq, Repr

/-- The error result of one `horizon.SubmitTransaction` call; `none` is a
nil error. -/
abbrev SubmitResult := Option SubmitError

/-! ## Runs -/

/-- The effects of the program, in the order the program performs them. -/
inductive Event where
  /-- The call `txn.UnmarshalText([]byte(xdr))`. -/
  | unmarshal (xdr : String)
  /-- The line printed by `previewTxn`. -/
  | preview (line : PreviewLine)
  /-- The call `wallet.Sign(txn)`. -/
  | sign (txn : Transaction)
  /-- The call `horizon.SubmitTransaction(txn)`. -/
  | submit (txn : Transaction)
  /-- A call of `fmt.Println` with a text and, when given, the error value. -/
  | println (text : String) (err : Option SubmitError)
  /-- The call `time.Sleep(time.Second * seconds)`. -/
  | sleep (seconds : Nat)
  /-- The call `outFile.WriteString(s)`. -/
  | write (s : String)
  deriving DecidableEq, Repr

/-- How a run ended. -/
inductive Status where
  /-- The outer loop was left by `break`; `main` returns. -/
  | exited
  /-- A `panic`, explicit or raised by the Go run time. -/
  | panicked (msg : String)
  /-- The program is inside a `SubmitTransaction` call for which the given
  list of results holds no entry. -/
  | awaiting
  /-- The iteration bound of `mainLoopAux` was reached (never in `mainLoop`,
  see `mainLoop_status`). -/
  | outOfFuel
  deriving DecidableEq, Repr

/-- A run: its effects and how it ended. -/
structure Run where
  trace : List Event
  status : Status
  deriving DecidableEq, Repr

/-- The run that performs `evs` and then goes on as `r`. -/
def Run.after (evs : List Event) (r : Run) : Run :=
  ⟨evs ++ r.trace, r.status⟩

/-! ## The submission loop (main.go, lines 98-137) -/

/-- The state the submission loop moves to after one attempt. -/
inductive Transition where
  /-- A `continue` statement: the loop makes another attempt. -/
  | RetryWait
  /-- The `break` of line 136, after a nil error. -/
  | Succeeded
  /-- The `break` of line 110 or of line 121. -/
  | TerminallyFailed
  deriving DecidableEq, Repr

/-- Lines 101-136: what the loop does with the error of one
`SubmitTransaction` call: the lines it prints, the time it sleeps, and
whether it continues or breaks. -/
def handleSubmitResult (err : SubmitResult) : List Event × Transition :=
  match err with
  | none => ([], .Succeeded)
  | some (.horizon e) =>
    if e.StatusCode = 504 then
      ([.println "Horizon timeout, retry request in 15 seconds" none, .sleep 15], .RetryWait)
    else if e.StatusCode = 404 then
      ([.println "ERROR: Account does not exist" err], .TerminallyFailed)
    else
      match e.Extras.lookup "result_codes" with
      | some (.stringMap resMap) =>
        match resMap.lookup "operations" with
        | some v =>
          if strings.Contains v "tx_insufficient_fee" then
            ([.println "Tx insufficient fee, retry in 30 seconds" none, .sleep 30], .RetryWait)
          else if strings.Contains v "op_no_destination" then
            ([.println "ERROR: Account does not exsit" none], .TerminallyFailed)
          else
            ([.println "" err, .sleep 60], .RetryWait)
        | none => ([.println "" err, .sleep 60], .RetryWait)
      | _ => ([.println "" err, .sleep 60], .RetryWait)
  | some (.otherError _) => ([.println "ERROR" err, .sleep 60], .RetryWait)

/-- How the submission loop was left. -/
inductive LoopExit where
  | Succeeded
  | TerminallyFailed
  | panicked (msg : String)
  | awaiting
  deriving DecidableEq, Repr

/-- The result of the submission loop: its effects, how it was left, and the
results of the Horizon client not yet used. -/
structure SubmitRun where
  trace : List Event
  exit : LoopExit
  rest : List SubmitResult
  deriving DecidableEq, Repr

/-- The run that performs `evs` and then goes on as `r`. -/
def SubmitRun.after (evs : List Event) (r : SubmitRun) : SubmitRun :=
  ⟨evs ++ r.trace, r.exit, r.rest⟩

/-- The loop of lines 98-137 for the signed transaction `txn`, where the
successive `SubmitTransaction` calls return the entries of the list.  Every
iteration previews the transaction, submits it, and handles the result. -/
def submitLoop (txn : Transaction) : List SubmitResult → SubmitRun
  | [] =>
    match previewTxn txn with
    | .error msg => ⟨[], .panicked msg, []⟩
    | .ok line => ⟨[.preview line, .submit txn], .awaiting, []⟩
  | err :: net =>
    match previewTxn txn with
    | .error msg => ⟨[], .panicked msg, err :: net⟩
    | .ok line =>
      match handleSubmitResult err with
      | (evs, .RetryWait) =>
        (submitLoop txn net).after ([.preview line, .submit txn] ++ evs)
      | (evs, .Succeeded) => ⟨[.preview line, .submit txn] ++ evs, .Succeeded, net⟩
      | (evs, .TerminallyFailed) =>
        ⟨[.preview line, .submit txn] ++ evs, .TerminallyFailed, net⟩

/-! ## The batch loop (main.go, lines 64-146) -/

/-- The library calls of the batch loop: `txn.UnmarshalText`, `wallet.Sign`
and `txn.MarshalText`; `none` and `.error msg` are a non-nil error. -/
structure Services where
  UnmarshalText : String → Option Transaction
  Sign : Transaction → Option Transaction
  MarshalText : Transaction → Except String String

/-- The two mode flags, `-preview` and `-submit`. -/
structure Flags where
  preview : Bool
  submit : Bool
  deriving DecidableEq, Repr

/-- Lines 72-145: the body of the batch loop for the line just read.
`next net` is the rest of the loop (the next iteration), given the results of
the Horizon client not yet used. -/
def processLine (svc : Services) (flags : Flags) (line : String)
    (net : List SubmitResult) (next : List SubmitResult → Run) : Run :=
  if line = "" then
    ⟨[], .exited⟩
  else
    let xdr := strings.TrimSpace line
    match svc.UnmarshalText xdr with
    | none => ⟨[.unmarshal xdr], .panicked "Cant unmarshal transaction"⟩
    | some txn =>
      match basicValidation txn with
      | .error _ => ⟨[.unmarshal xdr], .panicked "transaction validation failed"⟩
      | .ok _ =>
        if flags.preview then
          match previewTxn txn with
          | .error msg => ⟨[.unmarshal xdr], .panicked msg⟩
          | .ok l => (next net).after [.unmarshal xdr, .preview l]
        else
          match svc.Sign txn with
          | none => ⟨[.unmarshal xdr, .sign txn], .panicked "could not sign transaction"⟩
          | some signed =>
            if flags.submit then
              match submitLoop signed net with
              | ⟨evs, .Succeeded, rest⟩ => (next rest).after ([.unmarshal xdr, .sign txn] ++ evs)
              | ⟨evs, .TerminallyFailed, rest⟩ =>
                (next rest).after ([.unmarshal xdr, .sign txn] ++ evs)
              | ⟨evs, .panicked msg, _⟩ => ⟨[.unmarshal xdr, .sign txn] ++ evs, .panicked msg⟩
              | ⟨evs, .awaiting, _⟩ => ⟨[.unmarshal xdr, .sign txn] ++ evs, .awaiting⟩
            else
              match svc.MarshalText signed with
              | .error msg => ⟨[.unmarshal xdr, .sign txn], .panicked msg⟩
              | .ok out =>
                (next net).after [.unmarshal xdr, .sign txn, .write out, .write "\n"]

/-- The batch loop of lines 64-146 with a bound on the number of iterations:
read a line, stop at a read error (normally at `io.EOF`, with a panic at any
other error), otherwise process the line and go round again. -/
def mainLoopAux (svc : Services) (flags : Flags) :
    Nat → Reader → List SubmitResult → Run
  | 0, _, _ => ⟨[], .outOfFuel⟩
  | fuel + 1, reader, net =>
    match bufio.ReadString reader '\n' with
    | (_, _, some .EOF) => ⟨[], .exited⟩
    | (_, _, some (.other msg)) => ⟨[], .panicked msg⟩
    | (line, reader, none) =>
      processLine svc flags line net fun net => mainLoopAux svc flags fuel reader net

/-- The batch loop of lines 64-146.  Every iteration that goes round again
has read at least the delimiter, so one iteration per byte of input and one
more for the final read are enough. -/
def mainLoop (svc : Services) (flags : Flags) (reader : Reader)
    (net : List SubmitResult) : Run :=
  mainLoopAux svc flags (reader.buf.length + 1) reader net

/-! ## Reference definitions used to state the properties -/

/-- The three reasons for which validation fails. -/
inductive ValidationError where
  | wrongMemoType
  | wrongOperationCount
  | wrongOperationType
  deriving DecidableEq, Repr

/-- The message with which `basicValidation` reports each reason. -/
def ValidationError.reason : ValidationError → String
  | .wrongMemoType => "memo must be of type memo_hash or memo_return"
  | .wrongOperationCount => "transaction must contain a single operation"
  | .wrongOperationType => "transaction operation must be of type Payment"

/-- The reference rule check, written from the rules of the specification:
the memo is the `Hash` or the `Return` variant, there is exactly one
operation, and that operation is a `Payment`; the first rule that does not
hold gives the reason. -/
def validateSpec (txn : Transaction) : Except ValidationError Unit :=
  match txn.Memo, txn.Operations with
  | .MemoHash _, [.Payment _] => .ok ()
  | .MemoReturn _, [.Payment _] => .ok ()
  | .MemoHash _, [_] => .error .wrongOperationType
  | .MemoReturn _, [_] => .error .wrongOperationType
  | .MemoHash _, _ => .error .wrongOperationCount
  | .MemoReturn _, _ => .error .wrongOperationCount
  | _, _ => .error .wrongMemoType

/-- The input that consists of the given lines, each followed by a
newline. -/
def joinLines (lines : List (List Char)) : List Char :=
  lines.flatMap fun l => l ++ ['\n']

/-- The line `ReadString` returns for the line body `l`: the body and the
newline. -/
def lineOf (l : List Char) : String :=
  String.mk (l ++ ['\n'])

/-- The number of `SubmitTransaction` calls in a trace. -/
def attempts : List Event → Nat
  | [] => 0
  | .submit _ :: evs => attempts evs + 1
  | _ :: evs => attempts evs

/-- The total time slept in a trace, in seconds. -/
def totalWait : List Event → Nat
  | [] => 0
  | .sleep n :: evs => n + totalWait evs
  | _ :: evs => totalWait evs

/-- The strings written to the output file in a trace, in order. -/
def written : List Event → List String
  | [] => []
  | .write s :: evs => s :: written evs
  | _ :: evs => written evs

/-- The transactions passed to `wallet.Sign` in a trace, in order. -/
def signedInputs : List Event → List Transaction
  | [] => []
  | .sign t :: evs => t :: signedInputs evs
  | _ :: evs => signedInputs evs

/-- The way the loop is left after a result that does not make it retry. -/
def Transition.toExit : Transition → LoopExit
  | .Succeeded => .Succeeded
  | .TerminallyFailed => .TerminallyFailed
  | .RetryWait => .awaiting

/-- The per-operation result code as lines 112-114 read it: the
`operations` entry of the `result_codes` extra of a Horizon error, when that
extra is a `map[string]string` that has the entry. -/
def HorizonError.operationCodes (e : HorizonError) : Option String :=
  match e.Extras.lookup "result_codes" with
  | some (.stringMap resMap) => resMap.lookup "operations"
  | _ => none

/-- The per-operation result code, as lines 112-114 read it, contains
`code`. -/
def HorizonError.hasOperationCode (e : HorizonError) (code : String) : Bool :=
  match e.operationCodes with
  | some v => strings.Contains v code
  | none => false

/-- The error matches none of the specific rows of the classification: it is
not a Horizon error, or its status is neither 504 nor 404 and its
per-operation result code contains neither `tx_insufficient_fee` nor
`op_no_destination`. -/
def SubmitError.isGeneric : SubmitError → Bool
  | .otherError _ => true
  | .horizon e =>
    decide (e.StatusCode ≠ 504) && decide (e.StatusCode ≠ 404) &&
      !e.hasOperationCode "tx_insufficient_fee" && !e.hasOperationCode "op_no_destination"

/-- The results on which the loop ends: a nil error, a Horizon error of
status 404, or a Horizon error whose per-operation result code contains
`op_no_destination`. -/
def endsLoop : SubmitResult → Bool
  | none => true
  | some (.horizon e) => decide (e.StatusCode = 404) || e.hasOperationCode "op_no_destination"
  | some (.otherError _) => false

/-- The per-operation result codes an error carries in its `result_codes`
extra, whatever the Go type that holds them: the `operations` entry of a
`map[string]string`, or the `operations` member (a string or an array of
strings) of a decoded `map[string]interface{}`. -/
def HorizonError.reportedOperationCodes (e : HorizonError) : List String :=
  match e.Extras.lookup "result_codes" with
  | some (.stringMap resMap) => (resMap.lookup "operations").toList
  | some (.interfaceMap resMap) =>
    match resMap.lookup "operations" with
    | some (.string v) => [v]
    | some (.strings vs) => vs
    | _ => []
  | _ => []

/-- One of the per-operation result codes the error carries contains
`code`. -/
def HorizonError.reportsOperationCode (e : HorizonError) (code : String) : Bool :=
  e.reportedOperationCodes.any fun v => strings.Contains v code

/-- The result of one submission attempt, as the specification classifies
it: a success, a retryable failure with its backoff in seconds, or a terminal
failure. -/
inductive SubmissionOutcome where
  | Success
  | RetryableFailure (backoff : Nat)
  | TerminalFailure
  deriving DecidableEq, Repr

/-- The rows of the classification table in the order in which the loop
tests them, with the per-operation result code as lines 112-114 read it: no
error; status 504; status 404; `tx_insufficient_fee`; `op_no_destination`;
any other error. -/
def classify : SubmitResult → SubmissionOutcome
  | none => .Success
  | some (.horizon e) =>
    if e.StatusCode = 504 then .RetryableFailure 15
    else if e.StatusCode = 404 then .TerminalFailure
    else if e.hasOperationCode "tx_insufficient_fee" then .RetryableFailure 30
    else if e.hasOperationCode "op_no_destination" then .TerminalFailure
    else .RetryableFailure 60
  | some (.otherError _) => .RetryableFailure 60

/-- The result is classified as a retryable failure. -/
def isRetryable (r : SubmitResult) : Bool :=
  match classify r with
  | .RetryableFailure _ => true
  | _ => false

/-- The backoff of a result: that of its class when it is a retryable
failure, and no wait otherwise. -/
def backoff (r : SubmitResult) : Nat :=
  match classify r with
  | .RetryableFailure seconds => seconds
  | _ => 0

/-- The way the loop is left on a result of the given class. -/
def SubmissionOutcome.toExit : SubmissionOutcome → LoopExit
  | .Success => .Succeeded
  | .TerminalFailure => .TerminallyFailed
  | .RetryableFailure _ => .awaiting

/-- A mock result: a Horizon gateway timeout. -/
def gatewayTimeout : SubmitResult :=
  some (.horizon ⟨504, []⟩)

/-- The error the Horizon client returns when the destination account does
not exist: status 400, with the result codes
`{"transaction": "tx_failed", "operations": ["op_no_destination"]}` decoded
from the JSON body into a `map[string]interface{}`. -/
def noDestinationError : HorizonError :=
  ⟨400, [("result_codes", .interfaceMap
    [("transaction", .string "tx_failed"), ("operations", .strings ["op_no_destination"])])]⟩

/-- The result of a submission that fails with `noDestinationError`. -/
def noDestination : SubmitResult :=
  some (.horizon noDestinationError)

/-- The error the Horizon client returns when the fee is too low: status
400, with the result codes `{"transaction": "tx_insufficient_fee"}` decoded
from the JSON body into a `map[string]interface{}`. -/
def insufficientFeeError : HorizonError :=
  ⟨400, [("result_codes", .interfaceMap [("transaction", .string "tx_insufficient_fee")])]⟩

/-- The result of a submission that fails with `insufficientFeeError`. -/
def insufficientFee : SubmitResult :=
  some (.horizon insufficientFeeError)

/-- An error of status 400 as the Horizon client decodes it, whose
per-operation result codes are `["tx_insufficient_fee"]`. -/
def operationFeeError : HorizonError :=
  ⟨400, [("result_codes", .interfaceMap
    [("transaction", .string "tx_failed"), ("operations", .strings ["tx_insufficient_fee"])])]⟩

/-- A hand-built error of status 400 whose `result_codes` extra is a
`map[string]string` with the entry `operations: op_no_destination`, the type
line 113 asserts.  The Horizon client, which decodes JSON, does not build
such a value. -/
def stringMapNoDestination : HorizonError :=
  ⟨400, [("result_codes", .stringMap [("operations", "op_no_destination")])]⟩

/-- A hand-built error of status 400 whose `result_codes` extra is a
`map[string]string` with the entry `operations: tx_insufficient_fee`, the
type line 113 asserts.  The Horizon client, which decodes JSON, does not
build such a value. -/
def stringMapFee : HorizonError :=
  ⟨400, [("result_codes", .stringMap [("operations", "tx_insufficient_fee")])]⟩

/-- An error of status 404 that carries decoded result codes. -/
def feeWithStatus404 : HorizonError :=
  ⟨404, [("result_codes", .interfaceMap
    [("transaction", .string "tx_failed"), ("operations", .strings ["tx_insufficient_fee"])])]⟩

/-- An error of status 504 that carries decoded result codes. -/
def feeWithStatus504 : HorizonError :=
  ⟨504, [("result_codes", .interfaceMap
    [("transaction", .string "tx_failed"), ("operations", .strings ["tx_insufficient_fee"])])]⟩

/-- A Horizon error of status 500 without extras. -/
def serverError : HorizonError :=
  ⟨500, []⟩

/-- A transaction with a `Hash` memo and a single payment. -/
def hashTxn : Transaction :=
  ⟨.MemoHash [1, 255], [.Payment ⟨"GDEST", "10", .NativeAsset⟩], 7, []⟩

/-- The line `previewTxn` prints for `hashTxn`. -/
def hashLine : PreviewLine :=
  ⟨"10", .NativeAsset, "GDEST", "01ff", 0, 7⟩

/-- A transaction with a `Return` memo and a single payment. -/
def returnTxn : Transaction :=
  ⟨.MemoReturn [1, 255], [.Payment ⟨"GDEST", "10", .NativeAsset⟩], 7, []⟩

/-- A transaction with two operations. -/
def twoOpsTxn : Transaction :=
  ⟨.MemoHash [1, 255],
    [.Payment ⟨"GDEST", "10", .NativeAsset⟩, .Payment ⟨"GDEST", "10", .NativeAsset⟩], 7, []⟩

/-- The signature the mock wallet appends. -/
def mockSignature : DecoratedSignature :=
  ⟨[0, 1, 2, 3], [9]⟩

/-- Mock library calls: the envelope `A` decodes to `hashTxn`, `B` to
`returnTxn`, `C` to `twoOpsTxn`, and nothing else decodes; signing appends
`mockSignature`; encoding gives `SA` for a `Hash` memo and `SB` otherwise. -/
def mockServices : Services where
  UnmarshalText := fun xdr =>
    if xdr = "A" then some hashTxn
    else if xdr = "B" then some returnTxn
    else if xdr = "C" then some twoOpsTxn
    else none
  Sign := fun txn => some { txn with Signatures := txn.Signatures ++ [mockSignature] }
  MarshalText := fun txn => .ok (if txn.Memo.isMemoHash then "SA" else "SB")

/-- One line of a batch that is signed and written: the line body, the
transaction it decodes to, the signed transaction and its encoding. -/
structure SignJob where
  line : List Char
  txn : Transaction
  signed : Transaction
  out : String

/-- The line of the job decodes to its transaction, which passes validation
and is signed to its signed transaction, and the codec encodes the signed
transaction to the output of the job (the codec contract of the
specification: encoding returns a text). -/
def SignJob.ok (svc : Services) (j : SignJob) : Prop :=
  '\n' ∉ j.line ∧
    svc.UnmarshalText (strings.TrimSpace (lineOf j.line)) = some j.txn ∧
    basicValidation j.txn = .ok () ∧
    svc.Sign j.txn = some j.signed ∧
    svc.MarshalText j.signed = .ok j.out

/-- The effects of the batch loop for one job in default mode. -/
def SignJob.events (j : SignJob) : List Event :=
  [.unmarshal (strings.TrimSpace (lineOf j.line)), .sign j.txn, .write j.out, .write "\n"]

/-- One line of a batch that is submitted: the line body, the transaction it
decodes to, the signed transaction, the line its preview prints, the results
of the Horizon client that make the loop retry, and the result that ends the
loop. -/
structure SubmitJob where
  line : List Char
  txn : Transaction
  signed : Transaction
  shown : PreviewLine
  retries : List SubmitResult
  final : SubmitResult

/-- The line of the job decodes to its transaction, which passes validation
and is signed to its signed transaction, whose preview prints; the results
before the last are retryable failures and the last is a success or a
terminal failure. -/
def SubmitJob.ok (svc : Services) (j : SubmitJob) : Prop :=
  '\n' ∉ j.line ∧
    svc.UnmarshalText (strings.TrimSpace (lineOf j.line)) = some j.txn ∧
    basicValidation j.txn = .ok () ∧
    svc.Sign j.txn = some j.signed ∧
    previewTxn j.signed = .ok j.shown ∧
    (∀ x ∈ j.retries, isRetryable x = true) ∧
    isRetryable j.final = false

/-- The results the Horizon client returns for the job. -/
def SubmitJob.results (j : SubmitJob) : List SubmitResult :=
  j.retries ++ [j.final]

/-- The effects of the batch loop for one job in submit mode. -/
def SubmitJob.events (j : SubmitJob) : List Event :=
  [.unmarshal (strings.TrimSpace (lineOf j.line)), .sign j.txn] ++
    (submitLoop j.signed j.results).trace

/-- The message of the panic with which the batch loop rejects a line: the
line does not decode, or it decodes to a transaction that fails validation;
`none` when the line passes both. -/
def rejection (svc : Services) (line : String) : Option String :=
  match svc.UnmarshalText (strings.TrimSpace line) with
  | none => some "Cant unmarshal transaction"
  | some txn =>
    match basicValidation txn with
    | .error _ => some "transaction validation failed"
    | .ok _ => none

/-! ## Validation -/

/-- C1: `basicValidation` equals the reference rule check on every
transaction: it fails with the memo-type reason when the memo is neither
`Hash` nor `Return`, otherwise with the operation-count reason when there is
not exactly one operation, otherwise with the operation-type reason when the
operation is not a `Payment`, and it succeeds in the remaining case; the
three reasons are distinct messages. -/
theorem basicValidation_eq_validateSpec (txn : Transaction) :
    basicValidation txn = (validateSpec txn).mapError ValidationError.reason ∧
    (basicValidation txn = .ok () ↔
      (txn.Memo.isMemoHash = true ∨ txn.Memo.isMemoReturn = true) ∧
        ∃ p, txn.Operations = [.Payment p]) ∧
    Function.Injective ValidationError.reason := by
  obtain ⟨memo, ops, seq, sigs⟩ := txn
  refine ⟨?_, ?_, ?_⟩
  · cases memo <;> rcases ops with _ | ⟨op, _ | ⟨op2, ops⟩⟩ <;>
      first
        | (cases op <;>
            simp [basicValidation, validateSpec, Except.mapError, Memo.isMemoHash,
              Memo.isMemoReturn, Operation.isPayment, ValidationError.reason])
        | simp [basicValidation, validateSpec, Except.mapError, Memo.isMemoHash,
              Memo.isMemoReturn, Operation.isPayment, ValidationError.reason]
  · cases memo <;> rcases ops with _ | ⟨op, _ | ⟨op2, ops⟩⟩ <;>
      first
        | (cases op <;>
            simp [basicValidation, Memo.isMemoHash, Memo.isMemoReturn, Operation.isPayment])
        | simp [basicValidation, Memo.isMemoHash, Memo.isMemoReturn, Operation.isPayment]
  · intro a b h
    cases a <;> cases b <;> first | rfl | (exact absurd h (by decide))

/-! ## Reading lines -/

theorem readUntil_line (l rest : List Char) (h : '\n' ∉ l) :
    bufio.readUntil '\n' (l ++ '\n' :: rest) = (l ++ ['\n'], some rest) := by
  induction l with
  | nil => simp [bufio.readUntil]
  | cons c cs ih =>
    have hc : c ≠ '\n' := fun hc => h (by simp [hc])
    have hcs : '\n' ∉ cs := fun hcs => h (by simp [hcs])
    simp [bufio.readUntil, ih hcs, hc]

theorem readUntil_fragment (l : List Char) (h : '\n' ∉ l) :
    bufio.readUntil '\n' l = (l, none) := by
  induction l with
  | nil => simp [bufio.readUntil]
  | cons c cs ih =>
    have hc : c ≠ '\n' := fun hc => h (by simp [hc])
    have hcs : '\n' ∉ cs := fun hcs => h (by simp [hcs])
    simp [bufio.readUntil, ih hcs, hc]

theorem readUntil_length (delim : Char) (buf rest : List Char)
    (h : (bufio.readUntil delim buf).2 = some rest) : rest.length < buf.length := by
  induction buf with
  | nil => simp [bufio.readUntil] at h
  | cons c cs ih =>
    by_cases hc : c = delim
    · simp [bufio.readUntil, hc] at h
      simp [← h]
    · simp [bufio.readUntil, hc] at h
      have := ih h
      simp only [List.length_cons]
      omega

theorem ReadString_line (l rest : List Char) (e : ReadError) (h : '\n' ∉ l) :
    bufio.ReadString ⟨l ++ '\n' :: rest, e⟩ '\n' = (lineOf l, ⟨rest, e⟩, none) := by
  simp [bufio.ReadString, readUntil_line l rest h, lineOf]

theorem ReadString_fragment (l : List Char) (e : ReadError) (h : '\n' ∉ l) :
    bufio.ReadString ⟨l, e⟩ '\n' = (String.mk l, ⟨[], e⟩, some e) := by
  simp [bufio.ReadString, readUntil_fragment l h]

/-- The iteration bound does not matter once it exceeds the number of bytes
left to read. -/
theorem mainLoopAux_fuel_indep (svc : Services) (flags : Flags) :
    ∀ (f1 f2 : Nat) (reader : Reader) (net : List SubmitResult),
      reader.buf.length < f1 → reader.buf.length < f2 →
      mainLoopAux svc flags f1 reader net = mainLoopAux svc flags f2 reader net := by
  intro f1
  induction f1 with
  | zero => intro f2 reader net h1; omega
  | succ n ih =>
    intro f2 reader net h1 h2
    obtain ⟨m, rfl⟩ : ∃ m, f2 = m + 1 := ⟨f2 - 1, by omega⟩
    simp only [mainLoopAux, bufio.ReadString]
    rcases hr : bufio.readUntil '\n' reader.buf with ⟨line, _ | rest⟩
    · cases reader.err <;> rfl
    · have hlen := readUntil_length '\n' reader.buf rest (by rw [hr])
      have key : (fun net => mainLoopAux svc flags n ⟨rest, reader.err⟩ net) =
          (fun net => mainLoopAux svc flags m ⟨rest, reader.err⟩ net) := by
        funext net2
        exact ih m ⟨rest, reader.err⟩ net2 (by simp only; omega) (by simp only; omega)
      simp only [key]

/-- The iteration bound of `mainLoop` is enough: a larger one gives the same
run. -/
theorem mainLoopAux_fuel (svc : Services) (flags : Flags) (fuel : Nat) (reader : Reader)
    (net : List SubmitResult) (h : reader.buf.length < fuel) :
    mainLoopAux svc flags fuel reader net = mainLoop svc flags reader net :=
  mainLoopAux_fuel_indep svc flags fuel _ reader net h (Nat.lt_succ_self _)

/-- One iteration of the batch loop on an input that starts with a complete
line. -/
theorem mainLoop_line (svc : Services) (flags : Flags) (l rest : List Char) (e : ReadError)
    (net : List SubmitResult) (h : '\n' ∉ l) :
    mainLoop svc flags ⟨l ++ '\n' :: rest, e⟩ net =
      processLine svc flags (lineOf l) net fun net => mainLoop svc flags ⟨rest, e⟩ net := by
  have key : (fun net => mainLoopAux svc flags (l ++ '\n' :: rest).length ⟨rest, e⟩ net) =
      (fun net => mainLoop svc flags ⟨rest, e⟩ net) := by
    funext net2
    exact mainLoopAux_fuel svc flags _ ⟨rest, e⟩ net2 (by simp; omega)
  rw [mainLoop, mainLoopAux, ReadString_line l rest e h]
  simp only [key]

/-- The batch loop on an input without a newline: the read reports the error
of the file and the loop is left. -/
theorem mainLoop_fragment (svc : Services) (flags : Flags) (l : List Char)
    (net : List SubmitResult) (h : '\n' ∉ l) :
    mainLoop svc flags ⟨l, .EOF⟩ net = ⟨[], .exited⟩ := by
  rw [mainLoop, mainLoopAux, ReadString_fragment l _ h]

theorem lineOf_ne_empty (l : List Char) : lineOf l ≠ "" := by
  intro h
  have := congrArg String.data h
  simp [lineOf] at this

/-! ## Classification of one submission result -/

/-- The nested conditions of lines 104-129, flattened. -/
theorem handleSubmitResult_horizon (e : HorizonError) :
    handleSubmitResult (some (.horizon e)) =
      if e.StatusCode = 504 then
        ([.println "Horizon timeout, retry request in 15 seconds" none, .sleep 15], .RetryWait)
      else if e.StatusCode = 404 then
        ([.println "ERROR: Account does not exist" (some (.horizon e))], .TerminallyFailed)
      else if e.hasOperationCode "tx_insufficient_fee" = true then
        ([.println "Tx insufficient fee, retry in 30 seconds" none, .sleep 30], .RetryWait)
      else if e.hasOperationCode "op_no_destination" = true then
        ([.println "ERROR: Account does not exsit" none], .TerminallyFailed)
      else
        ([.println "" (some (.horizon e)), .sleep 60], .RetryWait) := by
  unfold handleSubmitResult HorizonError.hasOperationCode HorizonError.operationCodes
  by_cases h1 : e.StatusCode = 504
  · simp [h1]
  by_cases h2 : e.StatusCode = 404
  · simp [h2]
  simp only [h1, h2, if_false]
  rcases e.Extras.lookup "result_codes" with _ | ⟨resMap | decoded | d⟩
  · simp
  · dsimp only
    cases hl : List.lookup "operations" resMap <;> simp
  · simp
  · simp

theorem handleSubmitResult_generic (err : SubmitError) (h : err.isGeneric = true) :
    ∃ text, handleSubmitResult (some err) = ([.println text (some err), .sleep 60], .RetryWait) := by
  cases err with
  | otherError msg => exact ⟨"ERROR", rfl⟩
  | horizon e =>
    simp [SubmitError.isGeneric] at h
    obtain ⟨⟨⟨h1, h2⟩, h3⟩, h4⟩ := h
    exact ⟨"", by simp [handleSubmitResult_horizon, h1, h2, h3, h4]⟩

theorem endsLoop_of_not_retry (r : SubmitResult) (h : (handleSubmitResult r).2 ≠ .RetryWait) :
    endsLoop r = true := by
  rcases r with _ | ⟨e | msg⟩
  · rfl
  · rw [handleSubmitResult_horizon] at h
    simp only [endsLoop, Bool.or_eq_true, decide_eq_true_eq]
    by_cases h1 : e.StatusCode = 504
    · simp [h1] at h
    by_cases h2 : e.StatusCode = 404
    · exact Or.inl h2
    by_cases h3 : e.hasOperationCode "tx_insufficient_fee" = true
    · simp [h1, h2, h3] at h
    by_cases h4 : e.hasOperationCode "op_no_destination" = true
    · exact Or.inr h4
    · simp [h1, h2, h3, h4] at h
  · simp [handleSubmitResult] at h

theorem attempts_handleSubmitResult (r : SubmitResult) :
    attempts (handleSubmitResult r).1 = 0 := by
  rcases r with _ | ⟨e | msg⟩
  · rfl
  · rw [handleSubmitResult_horizon]
    split_ifs <;> rfl
  · rfl

theorem totalWait_of_not_retry (r : SubmitResult) (h : (handleSubmitResult r).2 ≠ .RetryWait) :
    totalWait (handleSubmitResult r).1 = 0 := by
  rcases r with _ | ⟨e | msg⟩
  · rfl
  · rw [handleSubmitResult_horizon] at h ⊢
    split_ifs at h ⊢ <;> first | rfl | exact absurd rfl h
  · simp [handleSubmitResult] at h

/-- The loop treats every result as the classification table says: it
continues exactly on the retryable failures, after sleeping for the backoff
of the class, and it breaks on a success and on a terminal failure without
sleeping. -/
theorem handleSubmitResult_classify (r : SubmitResult) :
    (handleSubmitResult r).2 =
        (match classify r with
          | .Success => .Succeeded
          | .RetryableFailure _ => .RetryWait
          | .TerminalFailure => .TerminallyFailed) ∧
      totalWait (handleSubmitResult r).1 = backoff r := by
  rcases r with _ | ⟨e | msg⟩
  · exact ⟨rfl, rfl⟩
  · rw [handleSubmitResult_horizon]
    unfold backoff classify
    by_cases h1 : e.StatusCode = 504
    · simp [h1, totalWait]
    by_cases h2 : e.StatusCode = 404
    · simp [h2, totalWait]
    by_cases h3 : e.hasOperationCode "tx_insufficient_fee" = true
    · simp [h1, h2, h3, totalWait]
    by_cases h4 : e.hasOperationCode "op_no_destination" = true
    · simp [h1, h2, h3, h4, totalWait]
    · simp [h1, h2, h3, h4, totalWait]
  · exact ⟨rfl, rfl⟩

theorem retry_iff_isRetryable (r : SubmitResult) :
    (handleSubmitResult r).2 = .RetryWait ↔ isRetryable r = true := by
  rw [(handleSubmitResult_classify r).1]
  unfold isRetryable
  cases classify r <;> simp

theorem toExit_classify (r : SubmitResult) :
    (handleSubmitResult r).2.toExit = (classify r).toExit := by
  rw [(handleSubmitResult_classify r).1]
  cases classify r <;> rfl

theorem attempts_append (a b : List Event) : attempts (a ++ b) = attempts a + attempts b := by
  induction a with
  | nil => simp [attempts]
  | cons ev evs ih =>
    cases ev <;> simp [attempts, ih]
    omega

theorem totalWait_append (a b : List Event) : totalWait (a ++ b) = totalWait a + totalWait b := by
  induction a with
  | nil => simp [totalWait]
  | cons ev evs ih =>
    cases ev <;> simp [totalWait, ih]
    omega

/-! ## The submission loop -/

theorem submitLoop_retry (txn : Transaction) (line : PreviewLine) (r : SubmitResult)
    (net : List SubmitResult) (hp : previewTxn txn = .ok line)
    (hr : (handleSubmitResult r).2 = .RetryWait) :
    submitLoop txn (r :: net) =
      (submitLoop txn net).after ([.preview line, .submit txn] ++ (handleSubmitResult r).1) := by
  rw [submitLoop, hp]
  rcases hh : handleSubmitResult r with ⟨evs, tr⟩
  rw [hh] at hr
  simp only at hr
  subst hr
  rfl

theorem submitLoop_stop (txn : Transaction) (line : PreviewLine) (r : SubmitResult)
    (net : List SubmitResult) (hp : previewTxn txn = .ok line)
    (hr : (handleSubmitResult r).2 ≠ .RetryWait) :
    submitLoop txn (r :: net) =
      ⟨[.preview line, .submit txn] ++ (handleSubmitResult r).1,
        (handleSubmitResult r).2.toExit, net⟩ := by
  rw [submitLoop, hp]
  rcases hh : handleSubmitResult r with ⟨evs, tr⟩
  rw [hh] at hr
  cases tr
  · exact absurd rfl hr
  · rfl
  · rfl

theorem submitLoop_head (txn : Transaction) (line : PreviewLine) (net : List SubmitResult)
    (hp : previewTxn txn = .ok line) :
    ∃ tail, (submitLoop txn net).trace = .preview line :: .submit txn :: tail := by
  cases net with
  | nil => exact ⟨[], by rw [submitLoop, hp]⟩
  | cons r net =>
    by_cases hr : (handleSubmitResult r).2 = .RetryWait
    · exact ⟨_, by rw [submitLoop_retry txn line r net hp hr]; rfl⟩
    · exact ⟨_, by rw [submitLoop_stop txn line r net hp hr]; rfl⟩

/-- The loop on a list of results that starts with results that all make it
retry. -/
theorem submitLoop_retries (txn : Transaction) (line : PreviewLine)
    (pre net : List SubmitResult) (hp : previewTxn txn = .ok line)
    (hpre : ∀ x ∈ pre, (handleSubmitResult x).2 = .RetryWait) :
    submitLoop txn (pre ++ net) =
      (submitLoop txn net).after
        (pre.flatMap fun x => [.preview line, .submit txn] ++ (handleSubmitResult x).1) := by
  induction pre with
  | nil => simp [SubmitRun.after]
  | cons x xs ih =>
    have hx := hpre x (by simp)
    have hxs : ∀ y ∈ xs, (handleSubmitResult y).2 = .RetryWait := fun y hy => hpre y (by simp [hy])
    rw [List.cons_append, submitLoop_retry txn line x _ hp hx, ih hxs]
    simp [SubmitRun.after]

theorem attempts_retries (txn : Transaction) (line : PreviewLine) (pre : List SubmitResult) :
    attempts (pre.flatMap fun x => [.preview line, .submit txn] ++ (handleSubmitResult x).1) =
      pre.length := by
  induction pre with
  | nil => rfl
  | cons x xs ih =>
    rw [List.flatMap_cons, attempts_append, ih]
    simp [attempts, attempts_handleSubmitResult]
    omega

theorem totalWait_retries (txn : Transaction) (line : PreviewLine) (pre : List SubmitResult) :
    totalWait (pre.flatMap fun x => [.preview line, .submit txn] ++ (handleSubmitResult x).1) =
      (pre.map backoff).sum := by
  induction pre with
  | nil => rfl
  | cons x xs ih =>
    rw [List.flatMap_cons, totalWait_append, ih]
    simp [totalWait, (handleSubmitResult_classify x).2]

/-- C2: an attempt that returns a Horizon error of status 504 prints the
timeout message, sleeps 15 seconds and the loop goes on with another attempt
(which starts by previewing and submitting the transaction again); an attempt
that returns a Horizon error of status 404 prints the error and leaves the
loop without sleeping.  Both hold for all extras the error carries. -/
theorem status_504_retries_status_404_stops (txn : Transaction) (line : PreviewLine)
    (extras504 extras404 : List (String × ExtraValue)) (net : List SubmitResult)
    (hp : previewTxn txn = .ok line) :
    submitLoop txn (some (.horizon ⟨504, extras504⟩) :: net) =
        (submitLoop txn net).after
          [.preview line, .submit txn,
            .println "Horizon timeout, retry request in 15 seconds" none, .sleep 15] ∧
      (∃ tail, (submitLoop txn net).trace = .preview line :: .submit txn :: tail) ∧
      submitLoop txn (some (.horizon ⟨404, extras404⟩) :: net) =
        ⟨[.preview line, .submit txn,
            .println "ERROR: Account does not exist" (some (.horizon ⟨404, extras404⟩))],
          .TerminallyFailed, net⟩ := by
  refine ⟨?_, submitLoop_head txn line net hp, ?_⟩
  · rw [submitLoop_retry txn line _ net hp (by simp [handleSubmitResult_horizon])]
    simp [handleSubmitResult_horizon]
  · rw [submitLoop_stop txn line _ net hp (by simp [handleSubmitResult_horizon])]
    simp [handleSubmitResult_horizon, Transition.toExit]

theorem status_504_retries_status_404_stops_witness :
    previewTxn hashTxn = .ok hashLine ∧
      submitLoop hashTxn [some (.horizon feeWithStatus504), none] =
        (submitLoop hashTxn [none]).after
          [.preview hashLine, .submit hashTxn,
            .println "Horizon timeout, retry request in 15 seconds" none, .sleep 15] ∧
      submitLoop hashTxn [some (.horizon feeWithStatus404), none] =
        ⟨[.preview hashLine, .submit hashTxn,
            .println "ERROR: Account does not exist" (some (.horizon feeWithStatus404))],
          .TerminallyFailed, [none]⟩ :=
  have h := status_504_retries_status_404_stops hashTxn hashLine feeWithStatus504.Extras
    feeWithStatus404.Extras [none] rfl
  ⟨rfl, h.1, h.2.2⟩

/-- Every error whose `result_codes` extra is a decoded
`map[string]interface{}` fails the assertion of line 113: unless its status
is 504 or 404, it is printed and followed by a sleep of 60 seconds and
another attempt. -/
theorem handleSubmitResult_interfaceMap (e : HorizonError) (m : List (String × JSONValue))
    (hm : e.Extras.lookup "result_codes" = some (.interfaceMap m))
    (h504 : e.StatusCode ≠ 504) (h404 : e.StatusCode ≠ 404) :
    handleSubmitResult (some (.horizon e)) =
      ([.println "" (some (.horizon e)), .sleep 60], .RetryWait) := by
  have hfee : e.hasOperationCode "tx_insufficient_fee" = false := by
    simp [HorizonError.hasOperationCode, HorizonError.operationCodes, hm]
  have hdest : e.hasOperationCode "op_no_destination" = false := by
    simp [HorizonError.hasOperationCode, HorizonError.operationCodes, hm]
  simp [handleSubmitResult_horizon, h504, h404, hfee, hdest]

/-- C3: the code misses both result-code rows on the errors the Horizon
client returns.  The client decodes `result_codes` into a
`map[string]interface{}`, the assertion `resCodes.(map[string]string)` of
line 113 fails on it, and the error falls through to the generic row.  An
error of status 400 whose per-operation result codes are
`["op_no_destination"]` is printed and followed by a sleep of 60 seconds and
another attempt, where the claim says the loop stops without waiting; an
error whose per-operation result codes are `["tx_insufficient_fee"]` is
followed by a sleep of 60 seconds, where the claim says 30.  The same codes
in a hand-built `map[string]string` take the two rows, so the rows are meant
and only the asserted type is wrong. -/
theorem result_code_rows_missed :
    (noDestinationError.reportsOperationCode "op_no_destination" = true ∧
        submitLoop hashTxn [noDestination, none] =
          ⟨[.preview hashLine, .submit hashTxn, .println "" noDestination, .sleep 60,
              .preview hashLine, .submit hashTxn],
            .Succeeded, []⟩) ∧
      (operationFeeError.reportsOperationCode "tx_insufficient_fee" = true ∧
        submitLoop hashTxn [some (.horizon operationFeeError), none] =
          ⟨[.preview hashLine, .submit hashTxn,
              .println "" (some (.horizon operationFeeError)), .sleep 60,
              .preview hashLine, .submit hashTxn],
            .Succeeded, []⟩) ∧
      (stringMapNoDestination.reportsOperationCode "op_no_destination" = true ∧
        submitLoop hashTxn [some (.horizon stringMapNoDestination), none] =
          ⟨[.preview hashLine, .submit hashTxn,
              .println "ERROR: Account does not exsit" none],
            .TerminallyFailed, [none]⟩) ∧
      (stringMapFee.reportsOperationCode "tx_insufficient_fee" = true ∧
        submitLoop hashTxn [some (.horizon stringMapFee), none] =
          ⟨[.preview hashLine, .submit hashTxn,
              .println "Tx insufficient fee, retry in 30 seconds" none, .sleep 30,
              .preview hashLine, .submit hashTxn],
            .Succeeded, []⟩) :=
  ⟨⟨rfl, rfl⟩, ⟨rfl, rfl⟩, ⟨rfl, rfl⟩, ⟨rfl, rfl⟩⟩

/-- The loop is left normally only after a run of results that make it
retry, followed by a result on which the loop ends. -/
theorem submitLoop_exit_cause (txn : Transaction) :
    ∀ results : List SubmitResult,
      (submitLoop txn results).exit = .Succeeded ∨
          (submitLoop txn results).exit = .TerminallyFailed →
        ∃ pre r, results = pre ++ r :: (submitLoop txn results).rest ∧
          (∀ x ∈ pre, (handleSubmitResult x).2 = .RetryWait) ∧ endsLoop r = true := by
  intro results
  induction results with
  | nil =>
    intro h
    rw [submitLoop] at h
    cases hp : previewTxn txn <;> simp [hp] at h
  | cons r rs ih =>
    intro h
    cases hp : previewTxn txn with
    | error msg =>
      rw [submitLoop] at h
      simp [hp] at h
    | ok line =>
      by_cases hr : (handleSubmitResult r).2 = .RetryWait
      · rw [submitLoop_retry txn line r rs hp hr] at h ⊢
        obtain ⟨pre, r2, hrs, hpre, hend⟩ := ih h
        refine ⟨r :: pre, r2, ?_, ?_, hend⟩
        · simp only [SubmitRun.after, List.cons_append]
          rw [← hrs]
        · intro x hx
          rcases List.mem_cons.mp hx with rfl | hx
          · exact hr
          · exact hpre x hx
      · rw [submitLoop_stop txn line r rs hp hr]
        exact ⟨[], r, rfl, by simp, endsLoop_of_not_retry r hr⟩

theorem submitLoop_no_panic (txn : Transaction) (line : PreviewLine)
    (hp : previewTxn txn = .ok line) :
    ∀ (results : List SubmitResult) (msg : String),
      (submitLoop txn results).exit ≠ .panicked msg := by
  intro results
  induction results with
  | nil =>
    intro msg
    rw [submitLoop, hp]
    simp
  | cons r rs ih =>
    intro msg
    by_cases hr : (handleSubmitResult r).2 = .RetryWait
    · rw [submitLoop_retry txn line r rs hp hr]
      exact ih msg
    · rw [submitLoop_stop txn line r rs hp hr]
      cases hh : (handleSubmitResult r).2 <;> simp [Transition.toExit]

/-- C4: an attempt whose error matches none of the specific rows (an error
that is not a Horizon error, or a Horizon error whose status is neither 504
nor 404 and whose per-operation result code contains neither
`tx_insufficient_fee` nor `op_no_destination`) prints the error, sleeps 60
seconds and the loop goes on with another attempt, so the loop is left as it
is left on the results that follow.  On every list of results the loop is
either still inside an attempt when the results are used up, or it was left
after retryable failures followed by one result that is a success, a status
404 or an `op_no_destination`. -/
theorem generic_error_retries (txn : Transaction) (line : PreviewLine) (err : SubmitError)
    (net : List SubmitResult) (hp : previewTxn txn = .ok line)
    (hg : err.isGeneric = true) :
    (∃ text, submitLoop txn (some err :: net) =
        (submitLoop txn net).after
          [.preview line, .submit txn, .println text (some err), .sleep 60]) ∧
      (∃ tail, (submitLoop txn net).trace = .preview line :: .submit txn :: tail) ∧
      (submitLoop txn (some err :: net)).exit = (submitLoop txn net).exit ∧
      ∀ results : List SubmitResult,
        (submitLoop txn results).exit = .awaiting ∨
          ∃ pre r, results = pre ++ r :: (submitLoop txn results).rest ∧
            (∀ x ∈ pre, isRetryable x = true) ∧ endsLoop r = true := by
  obtain ⟨text, ht⟩ := handleSubmitResult_generic err hg
  have hstep : submitLoop txn (some err :: net) =
      (submitLoop txn net).after
        [.preview line, .submit txn, .println text (some err), .sleep 60] := by
    rw [submitLoop_retry txn line _ net hp (by rw [ht]), ht]
    rfl
  refine ⟨⟨text, hstep⟩, submitLoop_head txn line net hp, ?_, ?_⟩
  · rw [hstep]
    rfl
  · intro results
    have cause : (submitLoop txn results).exit = .Succeeded ∨
        (submitLoop txn results).exit = .TerminallyFailed →
        ∃ pre r, results = pre ++ r :: (submitLoop txn results).rest ∧
          (∀ x ∈ pre, isRetryable x = true) ∧ endsLoop r = true := by
      intro h
      obtain ⟨pre, r, h1, h2, h3⟩ := submitLoop_exit_cause txn results h
      exact ⟨pre, r, h1, fun x hx => (retry_iff_isRetryable x).mp (h2 x hx), h3⟩
    cases hx : (submitLoop txn results).exit with
    | Succeeded => exact Or.inr (cause (Or.inl hx))
    | TerminallyFailed => exact Or.inr (cause (Or.inr hx))
    | panicked msg => exact absurd hx (submitLoop_no_panic txn line hp results msg)
    | awaiting => exact Or.inl rfl

theorem generic_error_retries_witness :
    previewTxn hashTxn = .ok hashLine ∧ (SubmitError.horizon serverError).isGeneric = true ∧
      (submitLoop hashTxn [some (.horizon serverError), none]).exit =
        (submitLoop hashTxn [none]).exit :=
  ⟨rfl, rfl,
    (generic_error_retries hashTxn hashLine (.horizon serverError) [none] rfl rfl).2.2.1⟩

/-- The count of attempts and the total wait of the loop, with the results
classified as the loop tests them: when the first `n` results are all
retryable and the next one is not, the loop makes exactly `n + 1` submit
calls, sleeps for the sum of the backoffs of the first `n` results, is left
the way the class of the last result says, and leaves the later results
unused.  Gateway timeout then success: 2 attempts, 15 seconds, succeeded.
For every `n` there are results for which the loop makes `n + 1`
attempts. -/
theorem submitLoop_counts (txn : Transaction) (line : PreviewLine)
    (pre : List SubmitResult) (r : SubmitResult) (rest : List SubmitResult)
    (hp : previewTxn txn = .ok line)
    (hpre : ∀ x ∈ pre, isRetryable x = true)
    (hr : isRetryable r = false) :
    (attempts (submitLoop txn (pre ++ r :: rest)).trace = pre.length + 1 ∧
        totalWait (submitLoop txn (pre ++ r :: rest)).trace = (pre.map backoff).sum ∧
        (submitLoop txn (pre ++ r :: rest)).exit = (classify r).toExit ∧
        ((submitLoop txn (pre ++ r :: rest)).exit = .Succeeded ∨
          (submitLoop txn (pre ++ r :: rest)).exit = .TerminallyFailed) ∧
        (submitLoop txn (pre ++ r :: rest)).rest = rest) ∧
      (attempts (submitLoop txn (gatewayTimeout :: none :: rest)).trace = 2 ∧
        totalWait (submitLoop txn (gatewayTimeout :: none :: rest)).trace = 15 ∧
        (submitLoop txn (gatewayTimeout :: none :: rest)).exit = .Succeeded) ∧
      ∀ n : Nat, ∃ results,
        attempts (submitLoop txn results).trace = n + 1 ∧
          (submitLoop txn results).exit = .Succeeded := by
  have general : ∀ (pre : List SubmitResult) (r : SubmitResult) (rest : List SubmitResult),
      (∀ x ∈ pre, isRetryable x = true) →
      isRetryable r = false →
      attempts (submitLoop txn (pre ++ r :: rest)).trace = pre.length + 1 ∧
        totalWait (submitLoop txn (pre ++ r :: rest)).trace = (pre.map backoff).sum ∧
        (submitLoop txn (pre ++ r :: rest)).exit = (classify r).toExit ∧
        (submitLoop txn (pre ++ r :: rest)).rest = rest := by
    intro pre r rest hpre hr
    have hpre2 : ∀ x ∈ pre, (handleSubmitResult x).2 = .RetryWait :=
      fun x hx => (retry_iff_isRetryable x).mpr (hpre x hx)
    have hr2 : (handleSubmitResult r).2 ≠ .RetryWait := by
      rw [Ne, retry_iff_isRetryable, hr]
      decide
    rw [submitLoop_retries txn line pre _ hp hpre2, submitLoop_stop txn line r rest hp hr2]
    simp only [SubmitRun.after, attempts_append, totalWait_append, attempts_retries,
      totalWait_retries, attempts_handleSubmitResult, totalWait_of_not_retry r hr2,
      toExit_classify]
    simp [attempts, totalWait]
  refine ⟨?_, ?_, ?_⟩
  · obtain ⟨h1, h2, h3, h4⟩ := general pre r rest hpre hr
    refine ⟨h1, h2, h3, ?_, h4⟩
    rw [h3]
    unfold isRetryable at hr
    cases hh : classify r
    · exact Or.inl rfl
    · rw [hh] at hr
      simp at hr
    · exact Or.inr rfl
  · obtain ⟨h1, h2, h3, -⟩ := general [gatewayTimeout] none rest
      (by intro x hx; rw [List.mem_singleton.mp hx]; rfl) (by decide)
    exact ⟨h1, h2, h3⟩
  · intro n
    obtain ⟨h1, -, h3, -⟩ := general (List.replicate n gatewayTimeout) none []
      (by intro x hx; rw [List.eq_of_mem_replicate hx]; rfl) (by decide)
    exact ⟨_, by rw [h1, List.length_replicate], h3⟩

/-- C5: two of the three scenarios of the claim fail on the errors the
Horizon client returns, by the failed assertion of line 113 (the defect of
C3).  Gateway timeout then success: 2 attempts, 15 seconds, succeeded, as
the claim says.  A first result of `op_no_destination` followed by a
success: the loop sleeps 60 seconds and submits again, 2 attempts and a
success, where the claim says 1 attempt, no wait and a terminal failure; on
three results of `op_no_destination` the loop has slept 180 seconds and is
inside its fourth attempt.  `tx_insufficient_fee` three times then success:
4 attempts, as the claim says, but 180 seconds of sleep, where the claim
says 90. -/
theorem scenarios_on_returned_errors :
    (attempts (submitLoop hashTxn [gatewayTimeout, none]).trace = 2 ∧
        totalWait (submitLoop hashTxn [gatewayTimeout, none]).trace = 15 ∧
        (submitLoop hashTxn [gatewayTimeout, none]).exit = .Succeeded) ∧
      (noDestinationError.reportsOperationCode "op_no_destination" = true ∧
        attempts (submitLoop hashTxn [noDestination, none]).trace = 2 ∧
        totalWait (submitLoop hashTxn [noDestination, none]).trace = 60 ∧
        (submitLoop hashTxn [noDestination, none]).exit = .Succeeded ∧
        (submitLoop hashTxn [noDestination, none]).rest = []) ∧
      (attempts (submitLoop hashTxn [noDestination, noDestination, noDestination]).trace = 4 ∧
        totalWait (submitLoop hashTxn [noDestination, noDestination, noDestination]).trace =
          180 ∧
        (submitLoop hashTxn [noDestination, noDestination, noDestination]).exit = .awaiting) ∧
      (attempts (submitLoop hashTxn
          [insufficientFee, insufficientFee, insufficientFee, none]).trace = 4 ∧
        totalWait (submitLoop hashTxn
          [insufficientFee, insufficientFee, insufficientFee, none]).trace = 180 ∧
        (submitLoop hashTxn
          [insufficientFee, insufficientFee, insufficientFee, none]).exit = .Succeeded) :=
  ⟨⟨rfl, rfl, rfl⟩, ⟨rfl, rfl, rfl, rfl, rfl⟩, ⟨rfl, rfl, rfl⟩, ⟨rfl, rfl, rfl⟩⟩

/-! ## One iteration of the batch loop -/

theorem written_append (a b : List Event) : written (a ++ b) = written a ++ written b := by
  induction a with
  | nil => simp [written]
  | cons ev evs ih => cases ev <;> simp [written, ih]

theorem signedInputs_append (a b : List Event) :
    signedInputs (a ++ b) = signedInputs a ++ signedInputs b := by
  induction a with
  | nil => simp [signedInputs]
  | cons ev evs ih => cases ev <;> simp [signedInputs, ih]

theorem processLine_unmarshal_error (svc : Services) (flags : Flags) (l : List Char)
    (net : List SubmitResult) (next : List SubmitResult → Run)
    (h : svc.UnmarshalText (strings.TrimSpace (lineOf l)) = none) :
    processLine svc flags (lineOf l) net next =
      ⟨[.unmarshal (strings.TrimSpace (lineOf l))], .panicked "Cant unmarshal transaction"⟩ := by
  simp [processLine, lineOf_ne_empty, h]

theorem processLine_invalid (svc : Services) (flags : Flags) (l : List Char)
    (net : List SubmitResult) (next : List SubmitResult → Run) (txn : Transaction)
    (msg : String) (h : svc.UnmarshalText (strings.TrimSpace (lineOf l)) = some txn)
    (hv : basicValidation txn = .error msg) :
    processLine svc flags (lineOf l) net next =
      ⟨[.unmarshal (strings.TrimSpace (lineOf l))],
        .panicked "transaction validation failed"⟩ := by
  simp [processLine, lineOf_ne_empty, h, hv]

theorem processLine_preview (svc : Services) (sub : Bool) (l : List Char)
    (net : List SubmitResult) (next : List SubmitResult → Run) (txn : Transaction)
    (h : svc.UnmarshalText (strings.TrimSpace (lineOf l)) = some txn)
    (hv : basicValidation txn = .ok ()) :
    processLine svc ⟨true, sub⟩ (lineOf l) net next =
      match previewTxn txn with
      | .error msg => ⟨[.unmarshal (strings.TrimSpace (lineOf l))], .panicked msg⟩
      | .ok pl => (next net).after [.unmarshal (strings.TrimSpace (lineOf l)), .preview pl] := by
  simp [processLine, lineOf_ne_empty, h, hv]

theorem processLine_sign_error (svc : Services) (sub : Bool) (l : List Char)
    (net : List SubmitResult) (next : List SubmitResult → Run) (txn : Transaction)
    (h : svc.UnmarshalText (strings.TrimSpace (lineOf l)) = some txn)
    (hv : basicValidation txn = .ok ()) (hs : svc.Sign txn = none) :
    processLine svc ⟨false, sub⟩ (lineOf l) net next =
      ⟨[.unmarshal (strings.TrimSpace (lineOf l)), .sign txn],
        .panicked "could not sign transaction"⟩ := by
  simp [processLine, lineOf_ne_empty, h, hv, hs]

theorem processLine_marshal (svc : Services) (l : List Char) (net : List SubmitResult)
    (next : List SubmitResult → Run) (txn signed : Transaction)
    (h : svc.UnmarshalText (strings.TrimSpace (lineOf l)) = some txn)
    (hv : basicValidation txn = .ok ()) (hs : svc.Sign txn = some signed) :
    processLine svc ⟨false, false⟩ (lineOf l) net next =
      match svc.MarshalText signed with
      | .error msg =>
        ⟨[.unmarshal (strings.TrimSpace (lineOf l)), .sign txn], .panicked msg⟩
      | .ok out =>
        (next net).after
          [.unmarshal (strings.TrimSpace (lineOf l)), .sign txn, .write out, .write "\n"] := by
  simp [processLine, lineOf_ne_empty, h, hv, hs]

theorem processLine_write (svc : Services) (j : SignJob) (net : List SubmitResult)
    (next : List SubmitResult → Run) (h : j.ok svc) :
    processLine svc ⟨false, false⟩ (lineOf j.line) net next = (next net).after j.events := by
  obtain ⟨-, h1, h2, h3, h4⟩ := h
  simp [processLine, lineOf_ne_empty, h1, h2, h3, h4, SignJob.events]

theorem processLine_submit (svc : Services) (l : List Char) (net : List SubmitResult)
    (next : List SubmitResult → Run) (txn signed : Transaction)
    (h : svc.UnmarshalText (strings.TrimSpace (lineOf l)) = some txn)
    (hv : basicValidation txn = .ok ()) (hs : svc.Sign txn = some signed) :
    processLine svc ⟨false, true⟩ (lineOf l) net next =
      match submitLoop signed net with
      | ⟨evs, .Succeeded, rest⟩ =>
        (next rest).after ([.unmarshal (strings.TrimSpace (lineOf l)), .sign txn] ++ evs)
      | ⟨evs, .TerminallyFailed, rest⟩ =>
        (next rest).after ([.unmarshal (strings.TrimSpace (lineOf l)), .sign txn] ++ evs)
      | ⟨evs, .panicked msg, _⟩ =>
        ⟨[.unmarshal (strings.TrimSpace (lineOf l)), .sign txn] ++ evs, .panicked msg⟩
      | ⟨evs, .awaiting, _⟩ =>
        ⟨[.unmarshal (strings.TrimSpace (lineOf l)), .sign txn] ++ evs, .awaiting⟩ := by
  simp [processLine, lineOf_ne_empty, h, hv, hs]

/-- Two runs of one iteration that differ only in the rest of the loop are
related as the two rests are, when the relation holds between a run that
does not reach the rest and itself and is kept by putting effects in front. -/
theorem processLine_rel (svc : Services) (flags : Flags) (l : List Char)
    (net : List SubmitResult) (next1 next2 : List SubmitResult → Run) (R : Run → Run → Prop)
    (hrefl : ∀ r : Run, r.status ≠ .exited → R r r)
    (hafter : ∀ evs a b, R a b → R (Run.after evs a) (Run.after evs b))
    (hnext : ∀ net2, R (next1 net2) (next2 net2)) :
    R (processLine svc flags (lineOf l) net next1) (processLine svc flags (lineOf l) net next2) := by
  obtain ⟨pre, sub⟩ := flags
  cases h1 : svc.UnmarshalText (strings.TrimSpace (lineOf l)) with
  | none =>
    rw [processLine_unmarshal_error svc _ l net _ h1, processLine_unmarshal_error svc _ l net _ h1]
    exact hrefl _ (by simp)
  | some txn =>
    cases h2 : basicValidation txn with
    | error msg =>
      rw [processLine_invalid svc _ l net _ txn msg h1 h2,
        processLine_invalid svc _ l net _ txn msg h1 h2]
      exact hrefl _ (by simp)
    | ok u =>
      cases pre with
      | true =>
        rw [processLine_preview svc sub l net _ txn h1 h2,
          processLine_preview svc sub l net _ txn h1 h2]
        cases previewTxn txn with
        | error msg => exact hrefl _ (by simp)
        | ok pl => exact hafter _ _ _ (hnext net)
      | false =>
        cases h3 : svc.Sign txn with
        | none =>
          rw [processLine_sign_error svc sub l net _ txn h1 h2 h3,
            processLine_sign_error svc sub l net _ txn h1 h2 h3]
          exact hrefl _ (by simp)
        | some signed =>
          cases sub with
          | true =>
            rw [processLine_submit svc l net _ txn signed h1 h2 h3,
              processLine_submit svc l net _ txn signed h1 h2 h3]
            rcases submitLoop signed net with ⟨evs, ex, rest⟩
            cases ex with
            | Succeeded => exact hafter _ _ _ (hnext rest)
            | TerminallyFailed => exact hafter _ _ _ (hnext rest)
            | panicked msg => exact hrefl _ (by simp)
            | awaiting => exact hrefl _ (by simp)
          | false =>
            rw [processLine_marshal svc l net _ txn signed h1 h2 h3,
              processLine_marshal svc l net _ txn signed h1 h2 h3]
            cases svc.MarshalText signed with
            | error msg => exact hrefl _ (by simp)
            | ok out => exact hafter _ _ _ (hnext net)

/-! ## The batch loop on a batch of lines -/

theorem mainLoop_joinLines_cons (svc : Services) (flags : Flags) (x : List Char)
    (xs : List (List Char)) (tail : List Char) (e : ReadError) (net : List SubmitResult)
    (hx : '\n' ∉ x) :
    mainLoop svc flags ⟨joinLines (x :: xs) ++ tail, e⟩ net =
      processLine svc flags (lineOf x) net fun net =>
        mainLoop svc flags ⟨joinLines xs ++ tail, e⟩ net := by
  have : joinLines (x :: xs) ++ tail = x ++ '\n' :: (joinLines xs ++ tail) := by
    simp [joinLines]
  rw [this, mainLoop_line svc flags x _ e net hx]

/-- Two inputs that start with the same complete lines give runs related as
the runs on what follows the lines are. -/
theorem mainLoop_rel (svc : Services) (flags : Flags) (R : Run → Run → Prop)
    (hrefl : ∀ r : Run, r.status ≠ .exited → R r r)
    (hafter : ∀ evs a b, R a b → R (Run.after evs a) (Run.after evs b))
    (tail1 tail2 : List Char) (e1 e2 : ReadError)
    (htail : ∀ net, R (mainLoop svc flags ⟨tail1, e1⟩ net) (mainLoop svc flags ⟨tail2, e2⟩ net)) :
    ∀ (lines : List (List Char)) (net : List SubmitResult), (∀ x ∈ lines, '\n' ∉ x) →
      R (mainLoop svc flags ⟨joinLines lines ++ tail1, e1⟩ net)
        (mainLoop svc flags ⟨joinLines lines ++ tail2, e2⟩ net) := by
  intro lines
  induction lines with
  | nil =>
    intro net _
    simpa [joinLines] using htail net
  | cons x xs ih =>
    intro net hlines
    have hx := hlines x (by simp)
    have hxs : ∀ y ∈ xs, '\n' ∉ y := fun y hy => hlines y (by simp [hy])
    rw [mainLoop_joinLines_cons svc flags x xs tail1 e1 net hx,
      mainLoop_joinLines_cons svc flags x xs tail2 e2 net hx]
    exact processLine_rel svc flags x net _ _ R hrefl hafter fun net2 => ih net2 hxs

theorem mainLoop_rejected_line (svc : Services) (flags : Flags) (l rest : List Char)
    (e : ReadError) (net : List SubmitResult) (msg : String) (hl : '\n' ∉ l)
    (hbad : rejection svc (lineOf l) = some msg) :
    mainLoop svc flags ⟨l ++ '\n' :: rest, e⟩ net =
      ⟨[.unmarshal (strings.TrimSpace (lineOf l))], .panicked msg⟩ := by
  rw [mainLoop_line svc flags l rest e net hl]
  unfold rejection at hbad
  cases h1 : svc.UnmarshalText (strings.TrimSpace (lineOf l)) with
  | none =>
    rw [h1] at hbad
    simp only [Option.some.injEq] at hbad
    rw [processLine_unmarshal_error svc flags l net _ h1, hbad]
  | some txn =>
    rw [h1] at hbad
    dsimp only at hbad
    cases h2 : basicValidation txn with
    | error m =>
      rw [h2] at hbad
      simp only [Option.some.injEq] at hbad
      rw [processLine_invalid svc flags l net _ txn m h1 h2, hbad]
    | ok u =>
      rw [h2] at hbad
      simp at hbad

/-- C7: in every mode, on an input made of complete lines followed by a line
that does not decode or fails validation, the run is the run on the lines
before it, followed by the decoding call for that line and the panic, when
the run on the lines before completes; otherwise it is the run on the lines
before.  So the transactions signed, the number of submissions and the
strings written are those of the lines before: nothing of the rejected line
or of what follows it is signed, submitted or written, and the run does not
end normally.  When the rejected line is the first one, the run is the
decoding call and the panic alone. -/
theorem abort_at_rejected_line (svc : Services) (flags : Flags) (lines : List (List Char))
    (l rest : List Char) (e : ReadError) (net : List SubmitResult) (msg : String)
    (hlines : ∀ x ∈ lines, '\n' ∉ x) (hl : '\n' ∉ l)
    (hbad : rejection svc (lineOf l) = some msg) :
    ((mainLoop svc flags ⟨joinLines lines, .EOF⟩ net).status = .exited →
        mainLoop svc flags ⟨joinLines lines ++ (l ++ '\n' :: rest), e⟩ net =
          ⟨(mainLoop svc flags ⟨joinLines lines, .EOF⟩ net).trace ++
              [.unmarshal (strings.TrimSpace (lineOf l))], .panicked msg⟩) ∧
      ((mainLoop svc flags ⟨joinLines lines, .EOF⟩ net).status ≠ .exited →
        mainLoop svc flags ⟨joinLines lines ++ (l ++ '\n' :: rest), e⟩ net =
          mainLoop svc flags ⟨joinLines lines, .EOF⟩ net) ∧
      (signedInputs (mainLoop svc flags ⟨joinLines lines ++ (l ++ '\n' :: rest), e⟩ net).trace =
          signedInputs (mainLoop svc flags ⟨joinLines lines, .EOF⟩ net).trace ∧
        attempts (mainLoop svc flags ⟨joinLines lines ++ (l ++ '\n' :: rest), e⟩ net).trace =
          attempts (mainLoop svc flags ⟨joinLines lines, .EOF⟩ net).trace ∧
        written (mainLoop svc flags ⟨joinLines lines ++ (l ++ '\n' :: rest), e⟩ net).trace =
          written (mainLoop svc flags ⟨joinLines lines, .EOF⟩ net).trace ∧
        (mainLoop svc flags ⟨joinLines lines ++ (l ++ '\n' :: rest), e⟩ net).status ≠
          .exited) ∧
      mainLoop svc flags ⟨l ++ '\n' :: rest, e⟩ net =
        ⟨[.unmarshal (strings.TrimSpace (lineOf l))], .panicked msg⟩ := by
  have key := mainLoop_rel svc flags
    (fun full before =>
      (before.status = .exited →
        full = ⟨before.trace ++ [.unmarshal (strings.TrimSpace (lineOf l))], .panicked msg⟩) ∧
      (before.status ≠ .exited → full = before))
    (fun r hr => ⟨fun h => absurd h hr, fun _ => rfl⟩)
    (fun evs a b hab =>
      ⟨fun h => by
        have := hab.1 h
        rw [this]
        simp [Run.after],
      fun h => by
        have := hab.2 h
        rw [this]⟩)
    (l ++ '\n' :: rest) [] e .EOF
    (fun net2 => by
      rw [mainLoop_rejected_line svc flags l rest e net2 msg hl hbad,
        mainLoop_fragment svc flags [] net2 (by simp)]
      exact ⟨fun _ => rfl, fun h => absurd rfl h⟩)
    lines net hlines
  rw [List.append_nil] at key
  obtain ⟨k1, k2⟩ := key
  refine ⟨k1, k2, ?_, mainLoop_rejected_line svc flags l rest e net msg hl hbad⟩
  by_cases hs : (mainLoop svc flags ⟨joinLines lines, .EOF⟩ net).status = .exited
  · rw [k1 hs]
    simp [signedInputs_append, attempts_append, written_append, signedInputs, attempts, written]
  · rw [k2 hs]
    exact ⟨rfl, rfl, rfl, hs⟩

theorem abort_at_rejected_line_witness :
    (∀ x ∈ [['A']], '\n' ∉ x) ∧ '\n' ∉ ['C'] ∧
      rejection mockServices (lineOf ['C']) = some "transaction validation failed" ∧
      mainLoop mockServices ⟨false, false⟩ ⟨joinLines [['A']] ++ (['C'] ++ '\n' :: "A\n".data),
          .EOF⟩ [] =
        ⟨[.unmarshal "A", .sign hashTxn, .write "SA", .write "\n", .unmarshal "C"],
          .panicked "transaction validation failed"⟩ ∧
      mainLoop mockServices ⟨false, false⟩ ⟨['C'] ++ '\n' :: "A\n".data, .EOF⟩ [] =
        ⟨[.unmarshal "C"], .panicked "transaction validation failed"⟩ :=
  have h := abort_at_rejected_line mockServices ⟨false, false⟩ [['A']] ['C'] "A\n".data .EOF []
    "transaction validation failed" (by decide) (by decide) rfl
  ⟨by decide, by decide, rfl, h.1 rfl, h.2.2.2⟩

/-- C10: an input that ends with a fragment without a newline is processed
exactly like the input without the fragment: the run on complete lines
followed by a fragment is the run on the lines alone, whatever the fragment
holds, and the run on a fragment alone has no effect and ends normally. -/
theorem unterminated_fragment_ignored (svc : Services) (flags : Flags)
    (lines : List (List Char)) (frag : List Char) (net : List SubmitResult)
    (hlines : ∀ x ∈ lines, '\n' ∉ x) (hfrag : '\n' ∉ frag) :
    mainLoop svc flags ⟨joinLines lines ++ frag, .EOF⟩ net =
        mainLoop svc flags ⟨joinLines lines, .EOF⟩ net ∧
      mainLoop svc flags ⟨frag, .EOF⟩ net = ⟨[], .exited⟩ := by
  have key := mainLoop_rel svc flags (fun a b => a = b) (fun _ _ => rfl)
    (fun evs a b hab => by rw [hab]) frag [] .EOF .EOF
    (fun net2 => by
      rw [mainLoop_fragment svc flags frag net2 hfrag,
        mainLoop_fragment svc flags [] net2 (by simp)])
    lines net hlines
  rw [List.append_nil] at key
  exact ⟨key, mainLoop_fragment svc flags frag net hfrag⟩

theorem unterminated_fragment_ignored_witness :
    (∀ x ∈ [['A']], '\n' ∉ x) ∧ '\n' ∉ ['A'] ∧
      mockServices.UnmarshalText (strings.TrimSpace "A") = some hashTxn ∧
      mainLoop mockServices ⟨false, false⟩ ⟨joinLines [['A']] ++ ['A'], .EOF⟩ [] =
        mainLoop mockServices ⟨false, false⟩ ⟨joinLines [['A']], .EOF⟩ [] ∧
      mainLoop mockServices ⟨false, false⟩ ⟨['A'], .EOF⟩ [] = ⟨[], .exited⟩ :=
  have h := unterminated_fragment_ignored mockServices ⟨false, false⟩ [['A']] ['A'] []
    (by decide) (by decide)
  ⟨by decide, by decide, rfl, h.1, h.2⟩

/-! ## What reaches the output file -/

theorem written_handleSubmitResult (r : SubmitResult) :
    written (handleSubmitResult r).1 = [] := by
  rcases r with _ | ⟨e | msg⟩
  · rfl
  · rw [handleSubmitResult_horizon]
    split_ifs <;> rfl
  · rfl

theorem written_submitLoop (txn : Transaction) :
    ∀ net : List SubmitResult, written (submitLoop txn net).trace = [] := by
  intro net
  induction net with
  | nil =>
    rw [submitLoop]
    cases previewTxn txn <;> rfl
  | cons r rs ih =>
    cases hp : previewTxn txn with
    | error msg =>
      rw [submitLoop, hp]
      rfl
    | ok line =>
      by_cases hr : (handleSubmitResult r).2 = .RetryWait
      · rw [submitLoop_retry txn line r rs hp hr]
        simp [SubmitRun.after, written_append, written, written_handleSubmitResult, ih]
      · rw [submitLoop_stop txn line r rs hp hr]
        simp [written_append, written, written_handleSubmitResult]

theorem written_processLine (svc : Services) (flags : Flags) (line : String)
    (net : List SubmitResult) (next : List SubmitResult → Run)
    (hmode : flags.preview = true ∨ flags.submit = true)
    (hnext : ∀ net2, written (next net2).trace = []) :
    written (processLine svc flags line net next).trace = [] := by
  obtain ⟨pre, sub⟩ := flags
  unfold processLine
  by_cases h0 : line = ""
  · simp [h0, written]
  rw [if_neg h0]
  dsimp only
  cases h1 : svc.UnmarshalText (strings.TrimSpace line) with
  | none => rfl
  | some txn =>
    dsimp only
    cases h2 : basicValidation txn with
    | error msg => rfl
    | ok u =>
      dsimp only
      cases pre with
      | true =>
        simp only [if_true]
        cases previewTxn txn with
        | error msg => rfl
        | ok pl => simp [Run.after, written_append, written, hnext]
      | false =>
        have hsub : sub = true := by simpa using hmode
        subst hsub
        simp only [Bool.false_eq_true, if_false, if_true]
        cases h3 : svc.Sign txn with
        | none => rfl
        | some signed =>
          dsimp only
          have hw := written_submitLoop signed net
          generalize submitLoop signed net = sr at hw ⊢
          obtain ⟨evs, ex, rest⟩ := sr
          simp only at hw
          cases ex <;> simp [Run.after, written_append, written, hnext, hw]

/-- In preview mode and in submit mode nothing is written to the output
file. -/
theorem written_mainLoopAux (svc : Services) (flags : Flags)
    (hmode : flags.preview = true ∨ flags.submit = true) :
    ∀ (fuel : Nat) (reader : Reader) (net : List SubmitResult),
      written (mainLoopAux svc flags fuel reader net).trace = [] := by
  intro fuel
  induction fuel with
  | zero => intro reader net; rfl
  | succ n ih =>
    intro reader net
    rw [mainLoopAux]
    rcases hr : bufio.ReadString reader '\n' with ⟨line, reader2, _ | _ | msg⟩
    · exact written_processLine svc flags line net _ hmode fun net2 => ih reader2 net2
    · rfl
    · rfl

/-- The batch loop in default mode on lines that all decode, validate, sign
and encode, followed by any input. -/
theorem mainLoop_jobs (svc : Services) (tail : List Char) (e : ReadError) :
    ∀ (jobs : List SignJob) (net : List SubmitResult), (∀ j ∈ jobs, j.ok svc) →
      mainLoop svc ⟨false, false⟩ ⟨joinLines (jobs.map fun j => j.line) ++ tail, e⟩ net =
        (mainLoop svc ⟨false, false⟩ ⟨tail, e⟩ net).after (jobs.flatMap SignJob.events) := by
  intro jobs
  induction jobs with
  | nil =>
    intro net _
    simp [joinLines, Run.after]
  | cons j js ih =>
    intro net hjobs
    have hj := hjobs j (by simp)
    have hjs : ∀ k ∈ js, k.ok svc := fun k hk => hjobs k (by simp [hk])
    rw [List.map_cons, mainLoop_joinLines_cons svc _ j.line _ tail e net hj.1,
      processLine_write svc j net _ hj, ih net hjs]
    simp [Run.after]

theorem written_jobs (jobs : List SignJob) :
    written (jobs.flatMap SignJob.events) = jobs.flatMap fun j => [j.out, "\n"] := by
  induction jobs with
  | nil => rfl
  | cons j js ih =>
    rw [List.flatMap_cons, written_append, ih]
    simp [SignJob.events, written]

/-- C8: on a batch of complete lines that all decode, validate and sign,
with the codec contract that every signed transaction is encoded to a text,
the run in default mode is, for every line in input order, the decoding
call, the signing call and the two writes (the encoding of the signed
transaction, then a newline), and the run ends normally; so the output file
receives one line per input line, the encoding of the signed transaction,
and with a signing call that appends one signature every signed transaction
has one signature more than the decoded one.  In preview mode and in submit
mode, on every input, nothing is written to the output file. -/
theorem default_mode_output (svc : Services) (jobs : List SignJob) (net : List SubmitResult)
    (hjobs : ∀ j ∈ jobs, j.ok svc) :
    mainLoop svc ⟨false, false⟩ ⟨joinLines (jobs.map fun j => j.line), .EOF⟩ net =
        ⟨jobs.flatMap SignJob.events, .exited⟩ ∧
      written (mainLoop svc ⟨false, false⟩
          ⟨joinLines (jobs.map fun j => j.line), .EOF⟩ net).trace =
        jobs.flatMap (fun j => [j.out, "\n"]) ∧
      ((∀ t s, svc.Sign t = some s → s.Signatures.length = t.Signatures.length + 1) →
        ∀ j ∈ jobs, j.signed.Signatures.length = j.txn.Signatures.length + 1) ∧
      ∀ (flags : Flags) (reader : Reader) (net2 : List SubmitResult),
        flags.preview = true ∨ flags.submit = true →
          written (mainLoop svc flags reader net2).trace = [] := by
  have hrun : mainLoop svc ⟨false, false⟩ ⟨joinLines (jobs.map fun j => j.line), .EOF⟩ net =
      ⟨jobs.flatMap SignJob.events, .exited⟩ := by
    have h := mainLoop_jobs svc [] .EOF jobs net hjobs
    rw [List.append_nil, mainLoop_fragment svc _ [] net (by simp)] at h
    rw [h]
    simp [Run.after]
  refine ⟨hrun, ?_, ?_, ?_⟩
  · rw [hrun]
    exact written_jobs jobs
  · intro hsign j hj
    exact hsign _ _ (hjobs j hj).2.2.2.1
  · intro flags reader net2 hmode
    exact written_mainLoopAux svc flags hmode _ reader net2

theorem default_mode_output_witness :
    (∀ j ∈ [(⟨['A'], hashTxn, { hashTxn with Signatures := [mockSignature] }, "SA"⟩ : SignJob),
        ⟨['B', ' '], returnTxn, { returnTxn with Signatures := [mockSignature] }, "SB"⟩],
        j.ok mockServices) ∧
      written (mainLoop mockServices ⟨false, false⟩ ⟨"A\nB \n".data, .EOF⟩ []).trace =
        ["SA", "\n", "SB", "\n"] ∧
      written (mainLoop mockServices ⟨true, false⟩ ⟨"A\nB \n".data, .EOF⟩ []).trace = [] ∧
      written (mainLoop mockServices ⟨false, true⟩ ⟨"A\nB \n".data, .EOF⟩ [none]).trace = [] :=
  have hj : ∀ j ∈ [(⟨['A'], hashTxn, { hashTxn with Signatures := [mockSignature] }, "SA"⟩ :
        SignJob),
      ⟨['B', ' '], returnTxn, { returnTxn with Signatures := [mockSignature] }, "SB"⟩],
      j.ok mockServices := by
    intro j hj
    simp only [List.mem_cons, List.mem_singleton, List.not_mem_nil, or_false] at hj
    rcases hj with rfl | rfl
    · exact ⟨by decide, rfl, rfl, rfl, rfl⟩
    · exact ⟨by decide, rfl, rfl, rfl, rfl⟩
  have h := default_mode_output mockServices _ [] hj
  ⟨hj, h.2.1, h.2.2.2 ⟨true, false⟩ _ _ (Or.inl rfl), h.2.2.2 ⟨false, true⟩ _ _ (Or.inr rfl)⟩

/-! ## Preview of a validated transaction -/

theorem basicValidation_ok (txn : Transaction) (h : basicValidation txn = .ok ()) :
    (txn.Memo.isMemoHash = true ∨ txn.Memo.isMemoReturn = true) ∧
      ∃ p, txn.Operations = [.Payment p] := by
  obtain ⟨memo, ops, seq, sigs⟩ := txn
  revert h
  cases memo <;> rcases ops with _ | ⟨op, _ | ⟨op2, ops⟩⟩ <;>
    first
      | (cases op <;>
          simp [basicValidation, Memo.isMemoHash, Memo.isMemoReturn, Operation.isPayment])
      | simp [basicValidation, Memo.isMemoHash, Memo.isMemoReturn, Operation.isPayment]

theorem previewTxn_of_return (txn : Transaction) (h : txn.Memo.isMemoReturn = true) :
    previewTxn txn = .error "interface conversion: txnbuild.Memo is not txnbuild.MemoHash" := by
  obtain ⟨memo, ops, seq, sigs⟩ := txn
  cases memo <;> simp [Memo.isMemoReturn] at h
  rfl

/-- C9: for a transaction that passes validation, `previewTxn` prints its
line (the memo assertion, the index and the operation assertion all succeed)
exactly when the memo is a `Hash` memo.  For a validated transaction with a
`Return` memo it panics at the memo assertion and prints nothing: in preview
mode the run on a line that decodes to it is the decoding call and the
panic; in submit mode, with a signing call that keeps the memo, the run is
the decoding call, the signing call and a panic, with no submission. -/
theorem previewTxn_requires_hash (svc : Services) (txn rtxn : Transaction) (sub : Bool)
    (l rest : List Char) (e : ReadError) (net : List SubmitResult)
    (hv : basicValidation txn = .ok ())
    (hrv : basicValidation rtxn = .ok ())
    (hret : rtxn.Memo.isMemoReturn = true)
    (hl : '\n' ∉ l)
    (hdec : svc.UnmarshalText (strings.TrimSpace (lineOf l)) = some rtxn)
    (hsign : ∀ s, svc.Sign rtxn = some s → s.Memo = rtxn.Memo) :
    ((∃ pl, previewTxn txn = .ok pl) ↔ txn.Memo.isMemoHash = true) ∧
      previewTxn rtxn =
        .error "interface conversion: txnbuild.Memo is not txnbuild.MemoHash" ∧
      mainLoop svc ⟨true, sub⟩ ⟨l ++ '\n' :: rest, e⟩ net =
        ⟨[.unmarshal (strings.TrimSpace (lineOf l))],
          .panicked "interface conversion: txnbuild.Memo is not txnbuild.MemoHash"⟩ ∧
      mainLoop svc ⟨false, true⟩ ⟨l ++ '\n' :: rest, e⟩ net =
        ⟨[.unmarshal (strings.TrimSpace (lineOf l)), .sign rtxn],
          .panicked (if (svc.Sign rtxn).isSome then
            "interface conversion: txnbuild.Memo is not txnbuild.MemoHash"
            else "could not sign transaction")⟩ := by
  refine ⟨?_, previewTxn_of_return rtxn hret, ?_, ?_⟩
  · obtain ⟨hm, p, hops⟩ := basicValidation_ok txn hv
    obtain ⟨memo, ops, seq, sigs⟩ := txn
    simp only at hops
    subst hops
    cases memo <;> simp [previewTxn, Memo.isMemoHash]
  · rw [mainLoop_line svc _ l rest e net hl, processLine_preview svc sub l net _ rtxn hdec hrv,
      previewTxn_of_return rtxn hret]
  · rw [mainLoop_line svc _ l rest e net hl]
    cases hs : svc.Sign rtxn with
    | none =>
      rw [processLine_sign_error svc true l net _ rtxn hdec hrv hs]
      rfl
    | some signed =>
      have hmemo : signed.Memo.isMemoReturn = true := by rw [hsign signed hs]; exact hret
      have hpanic := previewTxn_of_return signed hmemo
      rw [processLine_submit svc l net _ rtxn signed hdec hrv hs]
      cases net with
      | nil =>
        rw [submitLoop, hpanic]
        rfl
      | cons r rs =>
        rw [submitLoop, hpanic]
        rfl

theorem previewTxn_requires_hash_witness :
    basicValidation hashTxn = .ok () ∧ basicValidation returnTxn = .ok () ∧
      returnTxn.Memo.isMemoReturn = true ∧
      ((∃ pl, previewTxn hashTxn = .ok pl) ↔ hashTxn.Memo.isMemoHash = true) ∧
      mainLoop mockServices ⟨true, false⟩ ⟨['B'] ++ '\n' :: "A\n".data, .EOF⟩ [none] =
        ⟨[.unmarshal "B"],
          .panicked "interface conversion: txnbuild.Memo is not txnbuild.MemoHash"⟩ ∧
      mainLoop mockServices ⟨false, true⟩ ⟨['B'] ++ '\n' :: "A\n".data, .EOF⟩ [none] =
        ⟨[.unmarshal "B", .sign returnTxn],
          .panicked "interface conversion: txnbuild.Memo is not txnbuild.MemoHash"⟩ :=
  have h := previewTxn_requires_hash mockServices hashTxn returnTxn false ['B'] "A\n".data
    .EOF [none] rfl rfl rfl (by decide) rfl
    (by
      intro s hs
      have : s = { returnTxn with Signatures := returnTxn.Signatures ++ [mockSignature] } := by
        simpa [mockServices] using hs.symm
      rw [this])
  ⟨rfl, rfl, rfl, h.1, h.2.2.1, h.2.2.2⟩

/-! ## The iteration bound is never reached -/

theorem processLine_status (svc : Services) (flags : Flags) (line : String)
    (net : List SubmitResult) (next : List SubmitResult → Run)
    (hnext : ∀ net2, (next net2).status ≠ .outOfFuel) :
    (processLine svc flags line net next).status ≠ .outOfFuel := by
  obtain ⟨pre, sub⟩ := flags
  unfold processLine
  by_cases h0 : line = ""
  · simp [h0]
  rw [if_neg h0]
  dsimp only
  cases h1 : svc.UnmarshalText (strings.TrimSpace line) with
  | none => simp
  | some txn =>
    dsimp only
    cases h2 : basicValidation txn with
    | error msg => simp
    | ok u =>
      dsimp only
      cases pre with
      | true =>
        simp only [if_true]
        cases previewTxn txn with
        | error msg => simp
        | ok pl => exact hnext net
      | false =>
        simp only [Bool.false_eq_true, if_false]
        cases h3 : svc.Sign txn with
        | none => simp
        | some signed =>
          dsimp only
          cases sub with
          | true =>
            simp only [if_true]
            generalize submitLoop signed net = sr
            obtain ⟨evs, ex, rest⟩ := sr
            cases ex with
            | Succeeded => exact hnext rest
            | TerminallyFailed => exact hnext rest
            | panicked msg => simp
            | awaiting => simp
          | false =>
            simp only [Bool.false_eq_true, if_false]
            cases svc.MarshalText signed with
            | error msg => simp
            | ok out => exact hnext net

/-- The batch loop never stops for lack of iterations. -/
theorem mainLoopAux_status (svc : Services) (flags : Flags) :
    ∀ (fuel : Nat) (reader : Reader) (net : List SubmitResult),
      reader.buf.length < fuel →
        (mainLoopAux svc flags fuel reader net).status ≠ .outOfFuel := by
  intro fuel
  induction fuel with
  | zero => intro reader net h; omega
  | succ n ih =>
    intro reader net h
    simp only [mainLoopAux, bufio.ReadString]
    rcases hr : bufio.readUntil '\n' reader.buf with ⟨line, _ | rest⟩
    · cases reader.err <;> simp
    · have hlen := readUntil_length '\n' reader.buf rest (by rw [hr])
      exact processLine_status svc flags _ net _ fun net2 =>
        ih ⟨rest, reader.err⟩ net2 (by simp only; omega)

theorem mainLoop_status (svc : Services) (flags : Flags) (reader : Reader)
    (net : List SubmitResult) : (mainLoop svc flags reader net).status ≠ .outOfFuel :=
  mainLoopAux_status svc flags _ reader net (Nat.lt_succ_self _)

end Signer
